import Mathlib

/-!
Verification of the territory-control simulation engine in `game_logic.py`
(class `GameState`).

Embedding conventions:
* The numpy grid `self.grid` (a `height × width` int array indexed `grid[y, x]`
  with cell codes 0 = Empty, 1 = Defender/red, 2 = Attacker/blue) is embedded
  as a total function `Grid := ℕ × ℕ → ℕ` applied to the pair `(y, x)`.
  Every source access is bounds-guarded before indexing, so the behaviour of
  the function outside `[0,height) × [0,width)` is never relied upon.
* Positions are stored as `(x, y)` pairs, exactly as the source builds its
  `red_positions` / `blue_positions` tuples.
* Python `set` comprehensions iterate in an unspecified hash order.  The
  embedding enumerates positions in the row-major order of the generating
  comprehension (`for y ... for x ...`).  Where a settled claim could depend
  on that order this is noted at the claim.
* The per-position strength `1/(dist+1)` is accumulated by Python in IEEE-754
  doubles; the embedding uses exact rationals (`ℚ`).  The two agree except on
  configurations whose exact strength is exactly 3 reached through
  distance-2 terms (see the treatment of the strength claim).
* The scoring formulas use `math.exp`; these are embedded over `ℝ`, so the
  scoring layer is necessarily non-executable.  All control flow of the
  engine stays on `ℕ`/`ℚ`/`Bool` and reduces in the kernel.
* `initialize_obstacles` sets `initial_red_count = np.sum(grid == 1)`, a
  numpy `int64` scalar, and `np.float64` subclasses Python `float`.  The
  scoring division `points_placed / initial_red_count` with a zero
  denominator therefore does NOT raise: numpy scalar division emits a
  RuntimeWarning and yields `inf` (or `nan` for `0/0`), and the round
  completes normally.  The embedding stays in exact `ℝ`: the one value that
  would be non-finite — the `points_ratio` entry of the detailed stats — is
  typed `Option ℝ` with `none` in the zero-denominator case, and the
  `point_efficiency` branch is case-split on `initial_red_count = 0` to
  mirror the float comparisons (`inf > 1` is true and `exp(-inf) = 0.0`;
  `nan > 1` is false).
* Python `str.isdigit` is Unicode-aware: besides the ASCII digits it
  accepts other decimal digits (which `int` parses with their values) and
  `Numeric_Type=Digit` characters such as superscripts, on which the later
  `int(count)` raises `ValueError`.  The decoder is embedded on ASCII
  pattern text, where `isdigit` coincides with `Char.isDigit` and
  `int(count)` cannot fail; decoder theorems quantifying over characters
  carry this domain restriction explicitly.
* Wall-clock fields (`last_update_time`, `next_update_time`,
  `update_interval`) and the `threading.Lock` are not represented.
-/

/-- Cell matrix of the engine: value at `(y, x)`, mirroring `self.grid[y, x]`. -/
def Grid : Type := ℕ × ℕ → ℕ

/-- The pairs `(y, x)` with `y < height`, `x < width`: the index set of the
numpy array. -/
def gridRange (width height : ℕ) : Finset (ℕ × ℕ) :=
  Finset.range height ×ˢ Finset.range width

/-- Number of cells of the grid holding value `v`, as in `np.sum(grid == v)`. -/
def countVal (width height : ℕ) (g : Grid) (v : ℕ) : ℕ :=
  ∑ p ∈ gridRange width height, if g p = v then 1 else 0

/-- Enumeration of the `(x, y)` positions whose cell holds `v`, in the
row-major order of the source comprehension
`set((x, y) for y in range(height) for x in range(width) if grid[y, x] == v)`. -/
def cellList (width height : ℕ) (g : Grid) (v : ℕ) : List (ℕ × ℕ) :=
  (List.range height).flatMap fun y =>
    (List.range width).filterMap fun x =>
      if g (y, x) = v then some (x, y) else none

/-! ## Pattern decoder (`initialize_obstacles`, lines 37-65) -/

/-- Loop state of the RLE parser: cursor `(x, y)`, the accumulated digit
string (`none` models the empty string `count = ""`), and the set of cells
written so far. -/
structure DecodeState where
  x : ℕ
  y : ℕ
  count : Option ℕ
  cells : Finset (ℕ × ℕ)

/-- The body of `for i in range(repeat): if 0 <= x < w and 0 <= y < h:
grid[y, x] = 1; x += 1` — marking `n` consecutive cells starting at `x`,
silently dropping out-of-bounds ones. -/
def markRun (width height y : ℕ) : ℕ → ℕ → Finset (ℕ × ℕ) → Finset (ℕ × ℕ)
  | _, 0, cells => cells
  | x, n + 1, cells =>
      markRun width height y (x + 1) n
        (if x < width ∧ y < height then insert (x, y) cells else cells)

/-- One pass of the parser over the remaining characters (the `for char in
rle_pattern` loop).  Digits extend `count`; any other character first
consumes `count` into `repeat` and resets it to the empty string, then
dispatches on `'$'`/`'b'`/`'o'`/`'!'`; unrecognized characters fall through
with no further effect.  `Char.isDigit` models Python `str.isdigit` on
ASCII text only: on non-ASCII input Python also accepts other Unicode
decimal digits (later parsed by `int` with their values) and
`Numeric_Type=Digit` characters on which `int(count)` raises `ValueError`,
none of which this embedding represents — theorems quantifying over
characters therefore restrict themselves to ASCII. -/
def decodeLoop (width height : ℕ) : List Char → DecodeState → DecodeState
  | [], st => st
  | c :: rest, st =>
    if c.isDigit then
      decodeLoop width height rest
        { st with count := some ((st.count.getD 0) * 10 + (c.toNat - 48)) }
    else
      let rep := st.count.getD 1
      let st' : DecodeState := { st with count := none }
      if c = '$' then
        decodeLoop width height rest { st' with y := st'.y + rep, x := 0 }
      else if c = 'b' then
        decodeLoop width height rest { st' with x := st'.x + rep }
      else if c = 'o' then
        decodeLoop width height rest
          { st' with cells := markRun width height st'.y st'.x rep st'.cells,
                     x := st'.x + rep }
      else if c = '!' then st'
      else decodeLoop width height rest st'

/-- The set of `(x, y)` cells that `initialize_obstacles` marks as Defender
for a given pattern text and grid dimensions. -/
def decodeRLE (pattern : String) (width height : ℕ) : Finset (ℕ × ℕ) :=
  (decodeLoop width height pattern.toList
    { x := 0, y := 0, count := none, cells := ∅ }).cells

/-! ## Scoring (`calculate_victory_ranking`, lines 67-142) -/

/-- The `rank_info` dictionary: composite score plus tier label/description. -/
structure RankInfo where
  score : ℤ
  title : String
  description : String

/-- The `detailed_stats` dictionary of `calculate_victory_ranking`.
`points_ratio` is the one entry that is a non-finite float (`inf`, or `nan`
when `points_placed = 0` too) in the zero-defender case; `none` encodes
that non-finite value, every other entry stays finite. -/
structure DetailedStats where
  total_rounds : ℕ
  points_placed : ℕ
  efficiency_ratio : ℝ
  speed_rating : ℝ
  clicks_per_round : ℝ
  click_efficiency : ℝ
  initial_red_count : ℕ
  points_ratio : Option ℝ

/-- Return value of a successful `calculate_victory_ranking` call. -/
structure VictoryRanking where
  stats : DetailedStats
  rank_info : RankInfo

/-- Python `round(x, 1)` (one decimal digit).  Python rounds ties to even
while Mathlib `round` rounds them up; no settled claim sits on a tie. -/
noncomputable def round1 (x : ℝ) : ℝ := ((round (x * 10) : ℤ) : ℝ) / 10

/-- The default `rank_info` plus the `if weighted_score >= 900 ... elif ...`
update chain: inclusive lower bounds checked from highest tier down. -/
def rankInfoFor (ws : ℤ) : RankInfo :=
  if 900 ≤ ws then
    ⟨ws, "Master Tactician", "Perfect execution! Excellent point efficiency and timing."⟩
  else if 750 ≤ ws then
    ⟨ws, "Elite Commander", "Great work! Very efficient use of resources."⟩
  else if 600 ≤ ws then
    ⟨ws, "Skilled Strategist", "Well done! Consider using fewer points for better efficiency."⟩
  else if 450 ≤ ws then
    ⟨ws, "Tactical Operator", "Good job! Try to eliminate obstacles with fewer points."⟩
  else
    ⟨ws, "Aspiring Strategist", "Victory achieved! Try using fewer points to improve efficiency."⟩

/-- Body of `calculate_victory_ranking` (lines 72-142) on the three counters
it reads.  `initial_red_count` is a numpy scalar after initialization, so
the division does not raise on a zero denominator: `points_ratio` becomes
`inf` (or `nan` when `points_placed = 0` as well) with a RuntimeWarning,
`inf > 1` is true with `exp(-(inf - 1) * 2) = 0.0`, and `nan > 1` is
false, selecting efficiency `1.0`.  The embedding works in exact `ℝ`: the
`irc = 0` case of `point_efficiency` spells out those float comparisons,
and the then non-finite `points_ratio` stat is encoded as `none`.  Python
`round` rounds ties to even while Mathlib `round` rounds them up — no
settled claim sits on a tie. -/
noncomputable def victoryRankingData (irc pp rc : ℕ) : VictoryRanking :=
  let points_ratio : ℝ := (pp : ℝ) / (irc : ℝ)
  let point_efficiency : ℝ :=
    if irc = 0 then (if pp = 0 then 1 else 0)
    else if points_ratio > 1 then Real.exp (-(points_ratio - 1) * 2) else 1
  let theoretical_min_rounds : ℤ := ⌈(irc : ℝ) / 2⌉
  let extra_rounds : ℝ := (rc : ℝ) - (theoretical_min_rounds : ℝ)
  let speed_rating : ℝ := Real.exp (-extra_rounds / 15)
  let optimal_clicks_per_round : ℝ := 2.5
  let clicks_per_round : ℝ := (pp : ℝ) / ((max rc 1 : ℕ) : ℝ)
  let click_deviation : ℝ := |clicks_per_round - optimal_clicks_per_round|
  let click_efficiency : ℝ := Real.exp (-click_deviation / 2)
  let weighted_score : ℤ :=
    round (min (1000 : ℝ) (max 0
      (0.5 * point_efficiency * 1000 + 0.3 * speed_rating * 1000 +
        0.2 * click_efficiency * 1000)))
  { stats :=
      { total_rounds := rc
        points_placed := pp
        efficiency_ratio := round1 (point_efficiency * 100)
        speed_rating := round1 (speed_rating * 100)
        clicks_per_round := round1 clicks_per_round
        click_efficiency := round1 (click_efficiency * 100)
        initial_red_count := irc
        points_ratio := if irc = 0 then none else some (round1 (points_ratio * 100)) }
    rank_info := rankInfoFor weighted_score }

/-! ## Engine state -/

/-- The `final_stats` dictionary assembled at the win check
(lines 301-312): the victory-ranking stats minus `points_ratio`,
plus the rank info. -/
structure FinalStats where
  total_rounds : ℕ
  points_placed : ℕ
  efficiency_ratio : ℝ
  speed_rating : ℝ
  clicks_per_round : ℝ
  click_efficiency : ℝ
  initial_red_count : ℕ
  rank_info : RankInfo

/-- The mutable fields of the Python `GameState` object that the claims
observe.  Wall-clock fields and the `threading.Lock` are omitted. -/
structure GameState where
  width : ℕ
  height : ℕ
  grid : Grid
  last_grid : Option Grid
  round_count : ℕ
  points_placed : ℕ
  game_over : Bool
  final_stats : Option FinalStats
  initial_red_count : ℕ

/-- Fresh state, as built by `GameState.__init__` (zero grid, counters 0). -/
def GameState.new (width height : ℕ) : GameState :=
  { width := width, height := height, grid := fun _ => 0, last_grid := none
    round_count := 0, points_placed := 0, game_over := false
    final_stats := none, initial_red_count := 0 }

/-- `initialize_obstacles`: decode the pattern into the grid, then record
`initial_red_count = np.sum(grid == 1)`.  No input is ever rejected. -/
def GameState.initObstacles (s : GameState) (pattern : String) : GameState :=
  let cells := decodeRLE pattern s.width s.height
  let grid' : Grid := fun p => if (p.2, p.1) ∈ cells then 1 else s.grid p
  { s with grid := grid', initial_red_count := countVal s.width s.height grid' 1 }

/-- `calculate_victory_ranking` (lines 67-142).  Returns `none` when the
game is not over (`return None`), and the ranking dictionary otherwise.
The zero-denominator division inside does not raise (numpy scalar
semantics, see `victoryRankingData`), so there is no error outcome. -/
noncomputable def calculate_victory_ranking (s : GameState) :
    Option VictoryRanking :=
  if s.game_over = false then none
  else some (victoryRankingData s.initial_red_count s.points_placed s.round_count)

/-- `add_player_point` (lines 144-155): place an Attacker at `(x, y)` when
the game is running, the coordinate is in bounds and the cell is Empty.
Returns the boolean result together with the successor state. -/
def add_player_point (s : GameState) (x y : ℤ) : Bool × GameState :=
  if s.game_over then (false, s)
  else if ¬(0 ≤ x ∧ x < (s.width : ℤ) ∧ 0 ≤ y ∧ y < (s.height : ℤ)) then (false, s)
  else if s.grid (y.toNat, x.toNat) ≠ 0 then (false, s)
  else (true,
    { s with grid := Function.update s.grid (y.toNat, x.toNat) 2
             points_placed := s.points_placed + 1 })

/-! ## Tactical round update (`update_state_tactical`, lines 209-313) -/

/-- Manhattan distance `abs(x - rx) + abs(y - ry)` on `(x, y)` pairs. -/
def manhattan (a b : ℕ × ℕ) : ℕ :=
  ((a.1 : ℤ) - (b.1 : ℤ)).natAbs + ((a.2 : ℤ) - (b.2 : ℤ)).natAbs

/-- Nearest-red search (lines 236-243): iterate the red positions keeping
the first strict improvement of the minimum distance; `none` when there are
no reds (`nearest_red` stays `None`). -/
def nearestRed (reds : List (ℕ × ℕ)) (p : ℕ × ℕ) : Option (ℕ × ℕ) :=
  (reds.foldl
    (fun acc r =>
      match acc with
      | none => some (r, manhattan p r)
      | some (_, d) => if manhattan p r < d then some (r, manhattan p r) else acc)
    none).map Prod.fst

/-- A collected move: source position paired with destination position. -/
def Move : Type := (ℕ × ℕ) × (ℕ × ℕ)

/-- Movement proposal of a single blue at `p` (lines 245-265): step signs
toward the nearest red, then the first of the five candidate offsets that
lands in bounds on an Empty cell of the working grid (still the pristine
copy during collection). -/
def tryMove (width height : ℕ) (g : Grid) (reds : List (ℕ × ℕ)) (p : ℕ × ℕ) :
    Option Move :=
  match nearestRed reds p with
  | none => none
  | some r =>
    let dx : ℤ := Int.sign ((r.1 : ℤ) - (p.1 : ℤ))
    let dy : ℤ := Int.sign ((r.2 : ℤ) - (p.2 : ℤ))
    let cands : List (ℤ × ℤ) := [(dx, dy), (dx, 0), (0, dy), (-dy, dx), (dy, -dx)]
    (cands.find? fun c =>
        decide (0 ≤ (p.1 : ℤ) + c.1) && decide ((p.1 : ℤ) + c.1 < (width : ℤ)) &&
        decide (0 ≤ (p.2 : ℤ) + c.2) && decide ((p.2 : ℤ) + c.2 < (height : ℤ)) &&
        decide (g ((((p.2 : ℤ) + c.2).toNat, ((p.1 : ℤ) + c.1).toNat)) = 0)).map
      fun c => (p, (((p.1 : ℤ) + c.1).toNat, ((p.2 : ℤ) + c.2).toNat))

/-- The `moves_to_apply` list, in blue-iteration order (lines 233-265). -/
def collectMoves (width height : ℕ) (g : Grid) (blues reds : List (ℕ × ℕ)) :
    List Move :=
  blues.filterMap (tryMove width height g reds)

/-- Application of one collected move (lines 269-272): re-check that the
source still holds an Attacker; if so clear the source and write the
destination.  There is no check on the destination cell. -/
def applyMove (g : Grid) (m : Move) : Grid :=
  if g (m.1.2, m.1.1) = 2 then
    Function.update (Function.update g (m.1.2, m.1.1) 0) (m.2.2, m.2.1) 2
  else g

/-- Folding `applyMove` over the collected moves in collection order. -/
def applyMoves (g : Grid) (ms : List Move) : Grid :=
  ms.foldl applyMove g

/-- `_calculate_blue_strength` (lines 315-322): sum of `1/(dist+1)` over the
blue positions at Manhattan distance at most 2.  Python accumulates IEEE-754
doubles in set order; the embedding accumulates exact rationals (addition in
`ℚ` is commutative and associative, so the fold order is immaterial here). -/
def blueStrength (blues : List (ℕ × ℕ)) (p : ℕ × ℕ) : ℚ :=
  blues.foldl
    (fun acc b =>
      let d := manhattan p b
      if d ≤ 2 then acc + 1 / ((d : ℚ) + 1) else acc)
    0

/-- The offsets `[-2, -1, 0, 1, 2]` of the 5×5 attack scan. -/
def chebyshevOffsets : List ℤ := [-2, -1, 0, 1, 2]

/-- In-bounds red cells of grid `g` in the 5×5 Chebyshev neighborhood of `p`
(lines 280-285); the scan reads the pre-round grid. -/
def redNeighborhood (width height : ℕ) (g : Grid) (p : ℕ × ℕ) : Finset (ℕ × ℕ) :=
  ((chebyshevOffsets.flatMap fun dx => chebyshevOffsets.map fun dy => (dx, dy)).filterMap
    fun c =>
      if 0 ≤ (p.1 : ℤ) + c.1 ∧ (p.1 : ℤ) + c.1 < (width : ℤ) ∧
         0 ≤ (p.2 : ℤ) + c.2 ∧ (p.2 : ℤ) + c.2 < (height : ℤ) ∧
         g ((((p.2 : ℤ) + c.2).toNat, ((p.1 : ℤ) + c.1).toNat)) = 1 then
        some ((((p.1 : ℤ) + c.1).toNat, ((p.2 : ℤ) + c.2).toNat))
      else none).toFinset

/-- The deduplicated `red_to_remove` set (lines 275-285): union of the red
neighborhoods of all pre-move blues whose strength is at least 3. -/
def killSet (width height : ℕ) (g : Grid) (blues : List (ℕ × ℕ)) : Finset (ℕ × ℕ) :=
  blues.foldl
    (fun acc b =>
      if 3 ≤ blueStrength blues b then acc ∪ redNeighborhood width height g b
      else acc)
    ∅

/-- Clearing every kill-set cell to Empty in the working grid (lines 289-292). -/
def removeCells (g : Grid) (ks : Finset (ℕ × ℕ)) : Grid :=
  fun p => if (p.2, p.1) ∈ ks then 0 else g p

/-- The `final_stats` assembly of the win check (lines 301-312), from the
post-round counters and the just-computed victory ranking. -/
def finalStatsOf (rc pp irc : ℕ) (vd : VictoryRanking) : FinalStats :=
  { total_rounds := rc
    points_placed := pp
    efficiency_ratio := vd.stats.efficiency_ratio
    speed_rating := vd.stats.speed_rating
    clicks_per_round := vd.stats.clicks_per_round
    click_efficiency := vd.stats.click_efficiency
    initial_red_count := irc
    rank_info := vd.rank_info }

/-- `update_state_tactical` (lines 209-313).  The function is total: even a
winning round with `initial_red_count = 0` completes (the scoring division
yields non-finite floats, not an exception).  In the win branch
`calculate_victory_ranking` returns `some` because `game_over` was just set
to `true`; the `none` match arm is statically unreachable (in Python that
case would be a `TypeError` when subscripting `None`). -/
noncomputable def update_state_tactical (s : GameState) : GameState :=
  if s.game_over then s
  else
    let round_count := s.round_count + 1
    let red_positions := cellList s.width s.height s.grid 1
    let blue_positions := cellList s.width s.height s.grid 2
    let moves := collectMoves s.width s.height s.grid blue_positions red_positions
    let g1 := applyMoves s.grid moves
    let ks := killSet s.width s.height s.grid blue_positions
    let g2 := removeCells g1 ks
    let reds_after := red_positions.filter fun r => decide (r ∉ ks)
    let s1 : GameState :=
      { s with grid := g2, last_grid := some s.grid, round_count := round_count }
    if reds_after.isEmpty then
      let s2 : GameState := { s1 with game_over := true }
      match calculate_victory_ranking s2 with
      | some vd =>
        let fs := finalStatsOf s2.round_count s2.points_placed s2.initial_red_count vd
        { s2 with final_stats := some fs }
      | none => s2
    else s1

/-! ## Basic counting and enumeration lemmas -/

theorem mem_gridRange {width height : ℕ} {q : ℕ × ℕ} :
    q ∈ gridRange width height ↔ q.1 < height ∧ q.2 < width := by
  cases q
  simp [gridRange, Finset.mem_product]

theorem countVal_update {width height : ℕ} (g : Grid) (q : ℕ × ℕ) (v t : ℕ)
    (hq : q ∈ gridRange width height) :
    countVal width height (Function.update g q v) t + (if g q = t then 1 else 0)
      = countVal width height g t + (if v = t then 1 else 0) := by
  have h1 := Finset.add_sum_erase (gridRange width height)
    (fun p => if Function.update g q v p = t then 1 else 0) hq
  have h2 := Finset.add_sum_erase (gridRange width height)
    (fun p => if g p = t then 1 else 0) hq
  have h3 : (∑ p ∈ (gridRange width height).erase q,
        if Function.update g q v p = t then 1 else 0)
      = ∑ p ∈ (gridRange width height).erase q, if g p = t then 1 else 0 :=
    Finset.sum_congr rfl fun p hp => by
      rw [Function.update_noteq (Finset.ne_of_mem_erase hp)]
  unfold countVal
  rw [← h1, ← h2, h3]
  simp only [Function.update_same]
  ring

theorem countVal_update_of_notMem {width height : ℕ} (g : Grid) (q : ℕ × ℕ) (v t : ℕ)
    (hq : q ∉ gridRange width height) :
    countVal width height (Function.update g q v) t = countVal width height g t := by
  refine Finset.sum_congr rfl fun p hp => ?_
  have hne : p ≠ q := fun h => hq (h ▸ hp)
  rw [Function.update_noteq hne]

theorem mem_cellList {width height : ℕ} {g : Grid} {v : ℕ} {p : ℕ × ℕ} :
    p ∈ cellList width height g v ↔ p.1 < width ∧ p.2 < height ∧ g (p.2, p.1) = v := by
  obtain ⟨a, b⟩ := p
  simp only [cellList, List.mem_flatMap, List.mem_filterMap, List.mem_range]
  constructor
  · rintro ⟨y, hy, x, hx, hmk⟩
    by_cases hg : g (y, x) = v
    · rw [if_pos hg] at hmk
      have hxa : x = a := congrArg Prod.fst (Option.some_injective _ hmk)
      have hyb : y = b := congrArg Prod.snd (Option.some_injective _ hmk)
      subst hxa; subst hyb
      exact ⟨hx, hy, hg⟩
    · rw [if_neg hg] at hmk
      exact absurd hmk (by simp)
  · rintro ⟨ha, hb, hg⟩
    exact ⟨b, hb, a, ha, by rw [if_pos hg]⟩

/-! ## Claim C5: attacker placement -/

/-- C5: `placeAttacker(x, y)` succeeds exactly when the game is running,
`(x, y)` is in bounds, and the cell is Empty; on success it writes the cell
to Attacker and increments `pointsPlaced` (raising the grid Attacker count
by exactly one, all other fields untouched); on failure it returns `false`
and changes nothing.  The embedding is a total function, matching the
absence of any raising operation in `add_player_point` (every grid access
sits behind the bounds check).  In particular a second call at the same
coordinate fails and leaves the state after the first call unchanged, so
across the two calls the Attacker cell count rises by exactly one. -/
theorem add_player_point_spec (s : GameState) (x y : ℤ) :
    ((add_player_point s x y).1 = true ↔
      s.game_over = false ∧ 0 ≤ x ∧ x < (s.width : ℤ) ∧ 0 ≤ y ∧ y < (s.height : ℤ) ∧
        s.grid (y.toNat, x.toNat) = 0) ∧
    ((add_player_point s x y).1 = true →
      (add_player_point s x y).2.grid = Function.update s.grid (y.toNat, x.toNat) 2 ∧
      (add_player_point s x y).2.points_placed = s.points_placed + 1 ∧
      countVal s.width s.height (add_player_point s x y).2.grid 2
        = countVal s.width s.height s.grid 2 + 1 ∧
      (add_player_point s x y).2.width = s.width ∧
      (add_player_point s x y).2.height = s.height ∧
      (add_player_point s x y).2.round_count = s.round_count ∧
      (add_player_point s x y).2.game_over = s.game_over ∧
      (add_player_point s x y).2.final_stats = s.final_stats ∧
      (add_player_point s x y).2.initial_red_count = s.initial_red_count) ∧
    ((add_player_point s x y).1 = false → (add_player_point s x y).2 = s) ∧
    ((add_player_point s x y).1 = true →
      (add_player_point (add_player_point s x y).2 x y).1 = false ∧
      (add_player_point (add_player_point s x y).2 x y).2 = (add_player_point s x y).2) := by
  by_cases h1 : s.game_over = true
  · have he : add_player_point s x y = (false, s) := by simp [add_player_point, h1]
    rw [he]
    exact ⟨by simp [h1], by simp, fun _ => rfl, by simp⟩
  · by_cases h2 : 0 ≤ x ∧ x < (s.width : ℤ) ∧ 0 ≤ y ∧ y < (s.height : ℤ)
    · by_cases h3 : s.grid (y.toNat, x.toNat) = 0
      · have he : add_player_point s x y =
            (true, { s with grid := Function.update s.grid (y.toNat, x.toNat) 2
                            points_placed := s.points_placed + 1 }) := by
          rw [add_player_point, if_neg (by simpa using h1), if_neg (not_not_intro h2),
            if_neg (by simp [h3])]
        have hmem : ((y.toNat : ℕ), (x.toNat : ℕ)) ∈ gridRange s.width s.height := by
          rw [mem_gridRange]
          obtain ⟨hx0, hxw, hy0, hyh⟩ := h2
          exact ⟨by omega, by omega⟩
        have hcount : countVal s.width s.height
            (Function.update s.grid (y.toNat, x.toNat) 2) 2
              = countVal s.width s.height s.grid 2 + 1 := by
          have h := countVal_update s.grid (y.toNat, x.toNat) 2 2 hmem
          rw [if_pos rfl, if_neg (by simp [h3])] at h
          omega
        have he2 : add_player_point (add_player_point s x y).2 x y
            = (false, (add_player_point s x y).2) := by
          rw [he, add_player_point, if_neg (by simpa using h1), if_neg (not_not_intro h2),
            if_pos (by simp [Function.update_same])]
        rw [he]
        refine ⟨?_, ?_, ?_, ?_⟩
        · simp only [true_iff]
          exact ⟨by simpa using h1, h2.1, h2.2.1, h2.2.2.1, h2.2.2.2, h3⟩
        · exact fun _ => ⟨rfl, rfl, hcount, rfl, rfl, rfl, rfl, rfl, rfl⟩
        · intro hf
          exact absurd hf (by simp)
        · intro _
          rw [he] at he2
          rw [he2]
          exact ⟨rfl, rfl⟩
      · have he : add_player_point s x y = (false, s) := by
          rw [add_player_point, if_neg (by simpa using h1), if_neg (not_not_intro h2),
            if_pos h3]
        rw [he]
        refine ⟨?_, by simp, fun _ => rfl, by simp⟩
        constructor
        · intro hh
          exact absurd hh (by simp)
        · rintro ⟨_, _, _, _, _, hg⟩
          exact absurd hg h3
    · have he : add_player_point s x y = (false, s) := by
        rw [add_player_point, if_neg (by simpa using h1), if_pos h2]
      rw [he]
      refine ⟨?_, by simp, fun _ => rfl, by simp⟩
      constructor
      · intro hh
        exact absurd hh (by simp)
      · rintro ⟨_, hx0, hxw, hy0, hyh, _⟩
        exact absurd ⟨hx0, hxw, hy0, hyh⟩ h2

/-- Concrete state for the C5 witness: a fresh 2×2 board. -/
def c5State : GameState := GameState.new 2 2

/-- Witness for C5: on the fresh 2×2 board, `add_player_point_spec` applied
at `(0, 0)` discharges its conditional parts: the first call succeeds and
the second call at the same coordinate fails, leaving the state of the
first call unchanged. -/
theorem add_player_point_spec_witness :
    (add_player_point c5State 0 0).1 = true ∧
    (add_player_point (add_player_point c5State 0 0).2 0 0).1 = false ∧
    (add_player_point (add_player_point c5State 0 0).2 0 0).2
      = (add_player_point c5State 0 0).2 :=
  ⟨(add_player_point_spec c5State 0 0).1.mpr
      ⟨rfl, by decide, by decide, by decide, by decide, rfl⟩,
    (add_player_point_spec c5State 0 0).2.2.2
      ((add_player_point_spec c5State 0 0).1.mpr
        ⟨rfl, by decide, by decide, by decide, by decide, rfl⟩)⟩

/-! ## Movement-phase lemmas -/

theorem tryMove_eq_some {width height : ℕ} {g : Grid} {reds : List (ℕ × ℕ)}
    {p : ℕ × ℕ} {m : Move} (hm : tryMove width height g reds p = some m) :
    m.1 = p ∧ m.2.1 < width ∧ m.2.2 < height ∧ g (m.2.2, m.2.1) = 0 := by
  unfold tryMove at hm
  cases hnr : nearestRed reds p with
  | none => rw [hnr] at hm; exact absurd hm (by simp)
  | some r =>
    rw [hnr] at hm
    rw [Option.map_eq_some'] at hm
    obtain ⟨c, hfind, hmc⟩ := hm
    have hp := List.find?_some hfind
    simp only [Bool.and_eq_true, decide_eq_true_eq] at hp
    obtain ⟨⟨⟨⟨h1, h2⟩, h3⟩, h4⟩, h5⟩ := hp
    subst hmc
    refine ⟨rfl, ?_, ?_, ?_⟩
    · show ((p.1 : ℤ) + c.1).toNat < width
      omega
    · show ((p.2 : ℤ) + c.2).toNat < height
      omega
    · exact h5

theorem collectMoves_mem {width height : ℕ} {g : Grid} {blues reds : List (ℕ × ℕ)}
    {m : Move} (hm : m ∈ collectMoves width height g blues reds) :
    m.1 ∈ blues ∧ m.2.1 < width ∧ m.2.2 < height ∧ g (m.2.2, m.2.1) = 0 := by
  unfold collectMoves at hm
  rw [List.mem_filterMap] at hm
  obtain ⟨p, hp, ht⟩ := hm
  obtain ⟨h1, h2, h3, h4⟩ := tryMove_eq_some ht
  exact ⟨h1 ▸ hp, h2, h3, h4⟩

theorem applyMove_red_iff (g₀ g : Grid) (m : Move) (hdst : g₀ (m.2.2, m.2.1) = 0)
    (hg : ∀ p, g p = 1 ↔ g₀ p = 1) : ∀ p, applyMove g m p = 1 ↔ g₀ p = 1 := by
  intro p
  unfold applyMove
  by_cases hsrc : g (m.1.2, m.1.1) = 2
  · rw [if_pos hsrc]
    by_cases hpd : p = (m.2.2, m.2.1)
    · subst hpd
      rw [Function.update_same, hdst]
      simp
    · rw [Function.update_noteq hpd]
      by_cases hps : p = (m.1.2, m.1.1)
      · rw [hps, Function.update_same]
        have hne : ¬ g₀ (m.1.2, m.1.1) = 1 := fun hh => by
          have h2 : g (m.1.2, m.1.1) = 1 := (hg _).mpr hh
          rw [h2] at hsrc
          exact absurd hsrc (by norm_num)
        simp [hne]
      · rw [Function.update_noteq hps]
        exact hg p
  · rw [if_neg hsrc]
    exact hg p

theorem applyMoves_red_iff (g₀ : Grid) (ms : List Move)
    (hds : ∀ m ∈ ms, g₀ (m.2.2, m.2.1) = 0) :
    ∀ g : Grid, (∀ p, g p = 1 ↔ g₀ p = 1) →
      ∀ p, applyMoves g ms p = 1 ↔ g₀ p = 1 := by
  induction ms with
  | nil => exact fun g hg p => hg p
  | cons m ms ih =>
    intro g hg p
    have h1 : applyMoves g (m :: ms) = applyMoves (applyMove g m) ms := rfl
    rw [h1]
    exact ih (fun m' hm' => hds m' (List.mem_cons_of_mem _ hm'))
      (applyMove g m)
      (applyMove_red_iff g₀ g m (hds m (List.mem_cons_self _ _)) hg) p

theorem applyMove_countVal_le (width height : ℕ) (g : Grid) (m : Move)
    (hsrc : m.1.1 < width ∧ m.1.2 < height) :
    countVal width height (applyMove g m) 2 ≤ countVal width height g 2 := by
  unfold applyMove
  by_cases hs : g (m.1.2, m.1.1) = 2
  · rw [if_pos hs]
    have hqmem : ((m.1.2 : ℕ), m.1.1) ∈ gridRange width height :=
      mem_gridRange.mpr ⟨hsrc.2, hsrc.1⟩
    have h1 := countVal_update g (m.1.2, m.1.1) 0 2 hqmem
    rw [if_pos hs, if_neg (by norm_num)] at h1
    by_cases hd : ((m.2.2 : ℕ), m.2.1) ∈ gridRange width height
    · have h2 := countVal_update (Function.update g (m.1.2, m.1.1) 0) (m.2.2, m.2.1) 2 2 hd
      rw [if_pos rfl] at h2
      by_cases hu : Function.update g (m.1.2, m.1.1) 0 (m.2.2, m.2.1) = 2
      · rw [if_pos hu] at h2
        omega
      · rw [if_neg hu] at h2
        omega
    · rw [countVal_update_of_notMem _ _ _ _ hd]
      omega
  · rw [if_neg hs]

theorem applyMoves_countVal_le (width height : ℕ) (ms : List Move)
    (hsrc : ∀ m ∈ ms, m.1.1 < width ∧ m.1.2 < height) :
    ∀ g : Grid, countVal width height (applyMoves g ms) 2 ≤ countVal width height g 2 := by
  induction ms with
  | nil => exact fun g => le_refl _
  | cons m ms ih =>
    intro g
    have h1 : applyMoves g (m :: ms) = applyMoves (applyMove g m) ms := rfl
    rw [h1]
    exact le_trans
      (ih (fun m' hm' => hsrc m' (List.mem_cons_of_mem _ hm')) (applyMove g m))
      (applyMove_countVal_le width height g m (hsrc m (List.mem_cons_self _ _)))

theorem removeCells_countVal_le (width height : ℕ) (g : Grid) (ks : Finset (ℕ × ℕ)) :
    countVal width height (removeCells g ks) 2 ≤ countVal width height g 2 := by
  unfold countVal removeCells
  refine Finset.sum_le_sum fun p hp => ?_
  by_cases hk : (p.2, p.1) ∈ ks
  · rw [if_pos hk]
    simp
  · rw [if_neg hk]

theorem removeCells_red_iff (g : Grid) (ks : Finset (ℕ × ℕ)) (p : ℕ × ℕ) :
    removeCells g ks p = 1 ↔ (p.2, p.1) ∉ ks ∧ g p = 1 := by
  unfold removeCells
  by_cases hk : (p.2, p.1) ∈ ks
  · simp [hk]
  · simp [hk]

/-! ## Structure of one tactical round -/

/-- The moves collected in a round starting from state `s`. -/
def roundMoves (s : GameState) : List Move :=
  collectMoves s.width s.height s.grid
    (cellList s.width s.height s.grid 2) (cellList s.width s.height s.grid 1)

/-- The kill-set of a round starting from state `s`. -/
def roundKills (s : GameState) : Finset (ℕ × ℕ) :=
  killSet s.width s.height s.grid (cellList s.width s.height s.grid 2)

/-- The committed working grid of a round starting from state `s`. -/
def roundGrid (s : GameState) : Grid :=
  removeCells (applyMoves s.grid (roundMoves s)) (roundKills s)

/-- The surviving red-position list of a round starting from state `s`. -/
def roundRedsAfter (s : GameState) : List (ℕ × ℕ) :=
  (cellList s.width s.height s.grid 1).filter fun r => decide (r ∉ roundKills s)

/-- Anatomy of a round from a running state: `update_state_tactical`
commits the moved-and-culled working grid, bumps the round counter, keeps
the placement and initial-defender counters, and resolves the win check by
the surviving red positions. -/
theorem update_cases (s : GameState) (hgo : s.game_over = false) :
    (update_state_tactical s).width = s.width ∧
    (update_state_tactical s).height = s.height ∧
    (update_state_tactical s).grid = roundGrid s ∧
    (update_state_tactical s).round_count = s.round_count + 1 ∧
    (update_state_tactical s).points_placed = s.points_placed ∧
    (update_state_tactical s).initial_red_count = s.initial_red_count ∧
    ((roundRedsAfter s).isEmpty = true →
      (update_state_tactical s).game_over = true ∧
      (update_state_tactical s).final_stats = some (finalStatsOf (s.round_count + 1)
        s.points_placed s.initial_red_count
        (victoryRankingData s.initial_red_count s.points_placed (s.round_count + 1)))) ∧
    ((roundRedsAfter s).isEmpty = false →
      (update_state_tactical s).game_over = false ∧
      (update_state_tactical s).final_stats = s.final_stats) := by
  unfold update_state_tactical
  rw [hgo, if_neg (show ¬(false = true) by simp)]
  dsimp only
  rw [show ((cellList s.width s.height s.grid 1).filter
      (fun r => decide (r ∉ killSet s.width s.height s.grid (cellList s.width s.height s.grid 2))))
      = roundRedsAfter s from rfl]
  cases hie : (roundRedsAfter s).isEmpty with
  | true =>
    rw [if_pos rfl]
    unfold calculate_victory_ranking
    dsimp only
    rw [if_neg (show ¬(true = false) by simp)]
    dsimp only
    exact ⟨rfl, rfl, rfl, rfl, rfl, rfl, fun _ => ⟨rfl, rfl⟩,
      fun hf => absurd hf (by decide)⟩
  | false =>
    rw [if_neg (show ¬(false = true) by simp)]
    exact ⟨rfl, rfl, rfl, rfl, rfl, rfl, fun ht => absurd ht (by decide),
      fun _ => ⟨rfl, rfl⟩⟩

/-! ## Claim C10: per-round conservation -/

/-- C10: from every starting state, one `update_state_tactical` call never
creates a Defender cell (so the post-round Defender set is contained in the
pre-round one, on every cell of the plane), never increases the number of
Attacker cells on the board, and leaves `points_placed` and
`initial_red_count` unchanged. -/
theorem advance_round_conserves (s : GameState) :
    (∀ p : ℕ × ℕ, (update_state_tactical s).grid p = 1 → s.grid p = 1) ∧
    countVal s.width s.height (update_state_tactical s).grid 2
      ≤ countVal s.width s.height s.grid 2 ∧
    (update_state_tactical s).points_placed = s.points_placed ∧
    (update_state_tactical s).initial_red_count = s.initial_red_count := by
  by_cases hgo : s.game_over = true
  · have heq : update_state_tactical s = s := by
      unfold update_state_tactical
      rw [hgo, if_pos rfl]
    rw [heq]
    exact ⟨fun p hp => hp, le_refl _, rfl, rfl⟩
  · have hgo' : s.game_over = false := by
      revert hgo; cases s.game_over <;> simp
    obtain ⟨hw, hh, hgr, hrc, hpp, hirc, _, _⟩ := update_cases s hgo'
    have hds : ∀ m ∈ roundMoves s, s.grid (m.2.2, m.2.1) = 0 :=
      fun m hm => (collectMoves_mem hm).2.2.2
    have hsrcs : ∀ m ∈ roundMoves s, m.1.1 < s.width ∧ m.1.2 < s.height := by
      intro m hm
      have hb := mem_cellList.mp (collectMoves_mem hm).1
      exact ⟨hb.1, hb.2.1⟩
    refine ⟨?_, ?_, hpp, hirc⟩
    · intro p hp
      rw [hgr] at hp
      have h1 := ((removeCells_red_iff _ _ p).mp hp).2
      exact (applyMoves_red_iff s.grid (roundMoves s) hds s.grid (fun _ => Iff.rfl) p).mp h1
    · rw [hgr]
      exact le_trans (removeCells_countVal_le _ _ _ _)
        (applyMoves_countVal_le s.width s.height (roundMoves s) hsrcs s.grid)

/-! ## Claim C4: the win check -/

theorem roundRedsAfter_isEmpty_iff (s : GameState) :
    (roundRedsAfter s).isEmpty = true ↔
      ∀ p : ℕ × ℕ, p.1 < s.width → p.2 < s.height → roundGrid s (p.2, p.1) ≠ 1 := by
  have hds : ∀ m ∈ roundMoves s, s.grid (m.2.2, m.2.1) = 0 :=
    fun m hm => (collectMoves_mem hm).2.2.2
  have hred : ∀ p : ℕ × ℕ, roundGrid s (p.2, p.1) = 1 ↔ p ∉ roundKills s ∧ s.grid (p.2, p.1) = 1 := by
    intro p
    unfold roundGrid
    rw [removeCells_red_iff]
    constructor
    · rintro ⟨hk, h1⟩
      exact ⟨hk, (applyMoves_red_iff s.grid (roundMoves s) hds s.grid (fun _ => Iff.rfl) _).mp h1⟩
    · rintro ⟨hk, h1⟩
      exact ⟨hk, (applyMoves_red_iff s.grid (roundMoves s) hds s.grid (fun _ => Iff.rfl) _).mpr h1⟩
  rw [List.isEmpty_iff]
  constructor
  · intro hnil p hpw hph hg
    obtain ⟨hk, h1⟩ := (hred p).mp hg
    have hmem : p ∈ roundRedsAfter s := by
      unfold roundRedsAfter
      rw [List.mem_filter]
      exact ⟨mem_cellList.mpr ⟨hpw, hph, h1⟩, by simpa using hk⟩
    rw [hnil] at hmem
    exact absurd hmem (by simp)
  · intro hall
    by_contra hne
    obtain ⟨r, hr⟩ := List.exists_mem_of_ne_nil _ hne
    unfold roundRedsAfter at hr
    rw [List.mem_filter] at hr
    obtain ⟨hrc, hrk⟩ := hr
    obtain ⟨hrw, hrh, hr1⟩ := mem_cellList.mp hrc
    exact hall r hrw hrh ((hred r).mpr ⟨by simpa using hrk, hr1⟩)

/-- C4: postcondition of every round advanced from a running state (the
embedded `update_state_tactical` is total, as is the program: even the
zero-defender-count scoring completes, on non-finite floats): if the
committed grid holds no Defender cell then the flag flips to `true` and
`final_stats` is populated, in the same step, from `initial_red_count`, the
new `round_count` and `points_placed`; if a Defender cell remains the flag
stays `false`.  Hence no committed state pairs `game_over = false` with an
empty defender set. -/
theorem advance_round_win_check (s : GameState) (hgo : s.game_over = false) :
    ((∀ p : ℕ × ℕ, p.1 < s.width → p.2 < s.height →
        (update_state_tactical s).grid (p.2, p.1) ≠ 1) →
      (update_state_tactical s).game_over = true ∧
      (update_state_tactical s).final_stats = some (finalStatsOf (s.round_count + 1)
        s.points_placed s.initial_red_count
        (victoryRankingData s.initial_red_count s.points_placed (s.round_count + 1)))) ∧
    ((∃ p : ℕ × ℕ, p.1 < s.width ∧ p.2 < s.height ∧
        (update_state_tactical s).grid (p.2, p.1) = 1) →
      (update_state_tactical s).game_over = false) := by
  obtain ⟨hw, hh, hgr, hrc, hpp, hirc, hwin, hlose⟩ := update_cases s hgo
  constructor
  · intro hnone
    have hie : (roundRedsAfter s).isEmpty = true := by
      rw [roundRedsAfter_isEmpty_iff]
      intro p hpw hph
      rw [← hgr]
      exact hnone p hpw hph
    exact hwin hie
  · rintro ⟨p, hpw, hph, hp1⟩
    have hie : (roundRedsAfter s).isEmpty = false := by
      by_contra hne
      have hie' : (roundRedsAfter s).isEmpty = true := by
        revert hne; cases (roundRedsAfter s).isEmpty <;> simp
      exact (roundRedsAfter_isEmpty_iff s).mp hie' p hpw hph (by rw [← hgr]; exact hp1)
    exact (hlose hie).1

/-- Concrete state for the C4 witness: 3×3 board, one Defender at `(0, 0)`,
no Attackers. -/
def c4State : GameState :=
  { width := 3, height := 3
    grid := fun p => if p = (0, 0) then 1 else 0
    last_grid := none, round_count := 0, points_placed := 0
    game_over := false, final_stats := none, initial_red_count := 1 }

/-- Witness for C4: `c4State` is running, and `advance_round_win_check`
applies to its round. -/
theorem advance_round_win_check_witness :
    c4State.game_over = false ∧
    ((∀ p : ℕ × ℕ, p.1 < c4State.width → p.2 < c4State.height →
        (update_state_tactical c4State).grid (p.2, p.1) ≠ 1) →
      (update_state_tactical c4State).game_over = true ∧
      (update_state_tactical c4State).final_stats
        = some (finalStatsOf (c4State.round_count + 1) c4State.points_placed
            c4State.initial_red_count
            (victoryRankingData c4State.initial_red_count c4State.points_placed
              (c4State.round_count + 1)))) :=
  ⟨rfl, (advance_round_win_check c4State rfl).1⟩

/-! ## Claim C1: move application -/

/-- C1 (amended): applying the collected moves of a round never increases
the number of Attacker cells — it can strictly decrease it, because the
re-check guards only the source cell, so two moves naming the same
destination both fire and merge. -/
theorem move_application_never_increases_attackers (s : GameState) :
    countVal s.width s.height (applyMoves s.grid (roundMoves s)) 2
      ≤ countVal s.width s.height s.grid 2 := by
  apply applyMoves_countVal_le
  intro m hm
  have hb := mem_cellList.mp (collectMoves_mem hm).1
  exact ⟨hb.1, hb.2.1⟩

/-- 3×3 board with a Defender at `(2, 1)` and Attackers at `(0, 0)` and
`(0, 2)`: both attackers propose the Empty diagonal cell `(1, 1)`. -/
def c1State : GameState :=
  { width := 3, height := 3
    grid := fun p => if p = (1, 2) then 1 else if p = (0, 0) then 2 else if p = (2, 0) then 2 else 0
    last_grid := none, round_count := 0, points_placed := 2
    game_over := false, final_stats := none, initial_red_count := 1 }

/-- C1 (counterexample): in `c1State` the two collected moves name the same
destination `(1, 1)`; applying them merges the two attackers — the round
commits a grid with one Attacker cell instead of two, and the
later-collected attacker at `(0, 2)` did not stay put (its cell is Empty
afterwards).  The merged outcome is the same whichever of the two moves is
applied first, so it does not depend on the embedded iteration order of
the Python set of blue positions. -/
theorem move_collision_merges_attackers :
    roundMoves c1State = [((0, 0), (1, 1)), ((0, 2), (1, 1))] ∧
    countVal 3 3 c1State.grid 2 = 2 ∧
    countVal 3 3 (update_state_tactical c1State).grid 2 = 1 ∧
    (update_state_tactical c1State).grid (2, 0) = 0 := by
  obtain ⟨hw, hh, hgr, _, _, _, _, _⟩ := update_cases c1State rfl
  have hks : roundKills c1State = ∅ := by
    show killSet 3 3 c1State.grid (cellList 3 3 c1State.grid 2) = ∅
    rw [show cellList 3 3 c1State.grid 2 = [(0, 0), (0, 2)] from rfl]
    norm_num [killSet, List.foldl, blueStrength, manhattan]
  have hg2 : (update_state_tactical c1State).grid
      = removeCells (applyMoves c1State.grid (roundMoves c1State)) ∅ := by
    rw [hgr]
    unfold roundGrid
    rw [hks]
  refine ⟨rfl, rfl, ?_, ?_⟩
  · rw [hg2]
    rfl
  · rw [hg2]
    rfl

/-! ## Claim C2: zero-defender pattern -/

/-- C2 (code behaviour): the pattern `"!"` decodes to zero Defender cells,
yet `initialize_obstacles` accepts it without any error and records
`initial_red_count = 0` — and the very first round then completes its win
check, invoking `calculate_victory_ranking`, which performs the
`points_placed / initial_red_count` division with a zero denominator
(numpy scalar semantics: a RuntimeWarning and non-finite intermediate
values, no exception) and commits a populated `final_stats`.  Nothing ever
fails with an InvalidArgument. -/
theorem zero_defender_pattern_reaches_division :
    ((GameState.new 5 5).initObstacles "!").initial_red_count = 0 ∧
    (update_state_tactical ((GameState.new 5 5).initObstacles "!")).game_over = true ∧
    (update_state_tactical ((GameState.new 5 5).initObstacles "!")).final_stats
      = some (finalStatsOf 1 0 0 (victoryRankingData 0 0 1)) := by
  exact ⟨rfl, rfl, rfl⟩

/-! ## Claims C6 and C7: the pattern decoder -/

/-- Cells marked by one `o` run: membership characterization of `markRun`. -/
theorem mem_markRun {width height y : ℕ} :
    ∀ (n x : ℕ) (cells : Finset (ℕ × ℕ)) (q : ℕ × ℕ),
      q ∈ markRun width height y x n cells ↔
        q ∈ cells ∨ ∃ i, i < n ∧ q = (x + i, y) ∧ x + i < width ∧ y < height := by
  intro n
  induction n with
  | zero =>
    intro x cells q
    simp [markRun]
  | succ n ih =>
    intro x cells q
    rw [markRun, ih]
    by_cases hb : x < width ∧ y < height
    · rw [if_pos hb]
      simp only [Finset.mem_insert]
      constructor
      · rintro ((rfl | hq) | ⟨i, hi, rfl, hiw, hh⟩)
        · exact Or.inr ⟨0, by omega, by simp, by omega, hb.2⟩
        · exact Or.inl hq
        · refine Or.inr ⟨i + 1, by omega, ?_, by omega, hh⟩
          have harith : x + 1 + i = x + (i + 1) := by omega
          rw [harith]
      · rintro (hq | ⟨i, hi, rfl, hiw, hh⟩)
        · exact Or.inl (Or.inr hq)
        · cases i with
          | zero => exact Or.inl (Or.inl (by simp))
          | succ j =>
            refine Or.inr ⟨j, by omega, ?_, by omega, hh⟩
            have harith : x + (j + 1) = x + 1 + j := by omega
            rw [harith]
    · rw [if_neg hb]
      constructor
      · rintro (hq | ⟨i, hi, rfl, hiw, hh⟩)
        · exact Or.inl hq
        · refine Or.inr ⟨i + 1, by omega, ?_, by omega, hh⟩
          have harith : x + 1 + i = x + (i + 1) := by omega
          rw [harith]
      · rintro (hq | ⟨i, hi, rfl, hiw, hh⟩)
        · exact Or.inl hq
        · cases i with
          | zero => exact absurd ⟨by omega, hh⟩ hb
          | succ j =>
            refine Or.inr ⟨j, by omega, ?_, by omega, hh⟩
            have harith : x + (j + 1) = x + 1 + j := by omega
            rw [harith]

/-- Every cell the decoder loop ever marks is in bounds. -/
theorem decodeLoop_cells_bounded {width height : ℕ} :
    ∀ (cs : List Char) (st : DecodeState),
      (∀ q ∈ st.cells, q.1 < width ∧ q.2 < height) →
      ∀ q ∈ (decodeLoop width height cs st).cells, q.1 < width ∧ q.2 < height := by
  intro cs
  induction cs with
  | nil => exact fun st h => h
  | cons c rest ih =>
    intro st h
    rw [decodeLoop]
    by_cases hd : c.isDigit
    · rw [if_pos hd]
      exact ih _ h
    · rw [if_neg hd]
      by_cases hS : c = '$'
      · rw [if_pos hS]
        exact ih _ h
      · rw [if_neg hS]
        by_cases hB : c = 'b'
        · rw [if_pos hB]
          exact ih _ h
        · rw [if_neg hB]
          by_cases hO : c = 'o'
          · rw [if_pos hO]
            refine ih _ ?_
            intro q hq
            rcases (mem_markRun _ _ _ q).mp hq with hq' | ⟨i, _, rfl, hiw, hih⟩
            · exact h q hq'
            · exact ⟨hiw, hih⟩
          · rw [if_neg hO]
            by_cases hE : c = '!'
            · rw [if_pos hE]
              exact h
            · rw [if_neg hE]
              exact ih _ h

/-- The alphabet of the run-length encoding named by the claims. -/
def rleAlphabet (c : Char) : Prop :=
  c.isDigit = true ∨ c = '$' ∨ c = 'b' ∨ c = 'o' ∨ c = '!'

instance rleAlphabet.decPred : DecidablePred rleAlphabet := fun c => by
  unfold rleAlphabet
  infer_instance

/-- Manual run-length expansion, written from the claim wording: digits
accumulate a pending repeat count (default 1); `$` advances `y` by the
repeat count and resets `x` to 0; `b` advances `x` by the repeat count
without marking; `o` marks the next repeat consecutive cursor cells as
Defender, silently dropping any cell outside `[0,width)×[0,height)` while
still advancing `x` by the repeat count; `!` stops decoding with all
trailing text ignored; any other character is ignored. -/
def rleSpecLoop (width height : ℕ) :
    List Char → ℕ → ℕ → Option ℕ → Finset (ℕ × ℕ) → Finset (ℕ × ℕ)
  | [], _, _, _, cells => cells
  | c :: rest, x, y, count, cells =>
    if c.isDigit then
      rleSpecLoop width height rest x y (some ((count.getD 0) * 10 + (c.toNat - 48))) cells
    else if c = '$' then rleSpecLoop width height rest 0 (y + count.getD 1) none cells
    else if c = 'b' then rleSpecLoop width height rest (x + count.getD 1) y none cells
    else if c = 'o' then
      rleSpecLoop width height rest (x + count.getD 1) y none
        (cells ∪ ((Finset.range (count.getD 1)).filter
          fun i => x + i < width ∧ y < height).image fun i => (x + i, y))
    else if c = '!' then cells
    else rleSpecLoop width height rest x y count cells

/-- The spec-side decode of a whole pattern. -/
def rleSpec (pattern : String) (width height : ℕ) : Finset (ℕ × ℕ) :=
  rleSpecLoop width height pattern.toList 0 0 none ∅

/-- One `o` run marks the same cells whichever way it is phrased. -/
theorem markRun_eq_image (width height y x n : ℕ) (cells : Finset (ℕ × ℕ)) :
    markRun width height y x n cells
      = cells ∪ ((Finset.range n).filter
          fun i => x + i < width ∧ y < height).image (fun i => (x + i, y)) := by
  ext q
  rw [mem_markRun]
  simp only [Finset.mem_union, Finset.mem_image, Finset.mem_filter, Finset.mem_range]
  constructor
  · rintro (hq | ⟨i, hi, rfl, hiw, hih⟩)
    · exact Or.inl hq
    · exact Or.inr ⟨i, ⟨hi, hiw, hih⟩, rfl⟩
  · rintro (hq | ⟨i, ⟨hi, hiw, hih⟩, rfl⟩)
    · exact Or.inl hq
    · exact Or.inr ⟨i, hi, rfl, hiw, hih⟩

/-- On alphabet-only input the source decoder loop computes exactly the
spec-side expansion. -/
theorem decodeLoop_eq_spec {width height : ℕ} :
    ∀ (cs : List Char) (st : DecodeState), (∀ c ∈ cs, rleAlphabet c) →
      (decodeLoop width height cs st).cells
        = rleSpecLoop width height cs st.x st.y st.count st.cells := by
  intro cs
  induction cs with
  | nil => intro st _; rfl
  | cons c rest ih =>
    intro st h
    have hc := h c (List.mem_cons_self _ _)
    have hrest : ∀ c' ∈ rest, rleAlphabet c' :=
      fun c' hc' => h c' (List.mem_cons_of_mem _ hc')
    rw [decodeLoop, rleSpecLoop]
    by_cases hd : c.isDigit
    · rw [if_pos hd, if_pos hd]
      exact ih _ hrest
    · rw [if_neg hd, if_neg hd]
      dsimp only
      rcases hc with hd' | hS | hB | hO | hE
      · exact absurd hd' hd
      · subst hS
        rw [if_pos rfl, if_pos rfl]
        exact ih _ hrest
      · subst hB
        rw [if_neg (by decide), if_pos rfl, if_neg (by decide), if_pos rfl]
        exact ih _ hrest
      · subst hO
        rw [if_neg (by decide), if_neg (by decide), if_pos rfl,
          if_neg (by decide), if_neg (by decide), if_pos rfl]
        rw [ih _ hrest]
        dsimp only
        rw [markRun_eq_image]
      · subst hE
        rw [if_neg (by decide), if_neg (by decide), if_neg (by decide), if_pos rfl,
          if_neg (by decide), if_neg (by decide), if_neg (by decide), if_pos rfl]

/-- Counting the cells of an indicator grid counts the indicated set, when
that set is in bounds. -/
theorem countVal_indicator (width height : ℕ) (cells : Finset (ℕ × ℕ))
    (hsub : ∀ q ∈ cells, q.1 < width ∧ q.2 < height) :
    countVal width height (fun p => if (p.2, p.1) ∈ cells then 1 else 0) 1 = cells.card := by
  unfold countVal
  have hstep : ∀ p ∈ gridRange width height,
      (if (fun p : ℕ × ℕ => if (p.2, p.1) ∈ cells then 1 else 0) p = 1 then 1 else 0)
        = if (p.2, p.1) ∈ cells then 1 else 0 := by
    intro p _
    dsimp only
    by_cases hp : (p.2, p.1) ∈ cells
    · simp [hp]
    · simp [hp]
  rw [Finset.sum_congr rfl hstep, ← Finset.card_filter]
  refine Finset.card_bij' (fun p _ => (p.2, p.1)) (fun q _ => (q.2, q.1)) ?_ ?_ ?_ ?_
  · intro p hp
    exact (Finset.mem_filter.mp hp).2
  · intro q hq
    rw [Finset.mem_filter]
    refine ⟨mem_gridRange.mpr ⟨(hsub q hq).2, (hsub q hq).1⟩, hq⟩
  · intro p _
    rfl
  · intro q _
    rfl

/-- C6: on any pattern over the decoder alphabet
`{digits, b, o, $, !}`, the source decoder produces exactly the cells of
the manual run-length expansion described by the spec (the embedding of
`initialize_obstacles` is a total function, matching the absence of any
raising operation in its body), and the recorded `initial_red_count` of a
freshly initialized engine equals the size of the decoded set. -/
theorem decoder_matches_manual_expansion (pattern : String) (width height : ℕ)
    (halpha : ∀ c ∈ pattern.toList, rleAlphabet c) :
    decodeRLE pattern width height = rleSpec pattern width height ∧
    ((GameState.new width height).initObstacles pattern).initial_red_count
      = (decodeRLE pattern width height).card := by
  constructor
  · exact decodeLoop_eq_spec pattern.toList _ halpha
  · have hsub : ∀ q ∈ decodeRLE pattern width height, q.1 < width ∧ q.2 < height :=
      decodeLoop_cells_bounded pattern.toList _ (by simp) 
    have hrw : ((GameState.new width height).initObstacles pattern).initial_red_count
        = countVal width height
            (fun p => if (p.2, p.1) ∈ decodeRLE pattern width height then 1 else 0) 1 := by
      show countVal width height
          (fun p => if (p.2, p.1) ∈ decodeRLE pattern width height then 1
            else (GameState.new width height).grid p) 1 = _
      rfl
    rw [hrw, countVal_indicator width height _ hsub]

/-- Witness for C6: the pattern `"2o$b3o!"` is alphabet-only, and the
theorem applies to it on a 4×4 grid. -/
theorem decoder_matches_manual_expansion_witness :
    (∀ c ∈ ("2o$b3o!" : String).toList, rleAlphabet c) ∧
    (decodeRLE "2o$b3o!" 4 4 = rleSpec "2o$b3o!" 4 4 ∧
      ((GameState.new 4 4).initObstacles "2o$b3o!").initial_red_count
        = (decodeRLE "2o$b3o!" 4 4).card) :=
  ⟨by decide, decoder_matches_manual_expansion "2o$b3o!" 4 4 (by decide)⟩

/-- C7 (counterexample): deleting the unrecognized character `x` from
`"2xo!"` changes the decode result — with the `x` present, the pending
repeat count 2 is consumed and reset by the unrecognized character, so the
following `o` marks a single cell instead of two. -/
theorem decoder_unknown_char_not_transparent :
    decodeRLE "2xo!" 5 5 = {(0, 0)} ∧
    decodeRLE "2o!" 5 5 = {(1, 0), (0, 0)} ∧
    decodeRLE "2xo!" 5 5 ≠ decodeRLE "2o!" 5 5 := by
  refine ⟨rfl, rfl, fun h => ?_⟩
  have h1 : (1, 0) ∈ decodeRLE "2o!" 5 5 := by decide
  rw [← h] at h1
  exact absurd h1 (by decide)

/-- C7 (amended): an ASCII character outside the alphabet
`{decimal digits, '$', 'b', 'o', '!'}` is skipped without error, but it
first consumes the pending repeat count and resets it to the default — it
is not transparent to the digits-before-command protocol.  The ASCII bound
is where the embedding is faithful: in Python, non-ASCII characters with
Unicode `Numeric_Type=Digit` (such as a superscript two) are instead
accumulated into the count and make the later `int(count)` conversion
raise `ValueError`, and non-ASCII decimal digits are parsed as digits. -/
theorem unknown_char_resets_pending_count (width height : ℕ) (c : Char)
    (rest : List Char) (st : DecodeState)
    (_hascii : c.toNat < 128)
    (hd : c.isDigit = false) (hS : c ≠ '$') (hB : c ≠ 'b') (hO : c ≠ 'o')
    (hE : c ≠ '!') :
    decodeLoop width height (c :: rest) st
      = decodeLoop width height rest { st with count := none } := by
  rw [decodeLoop, if_neg (by rw [hd]; exact Bool.false_ne_true)]
  dsimp only
  rw [if_neg hS, if_neg hB, if_neg hO, if_neg hE]

/-- Witness for C7 (amended): the concrete unrecognized ASCII character `x`
satisfies every hypothesis, over a decode state with a pending count. -/
theorem unknown_char_resets_pending_count_witness :
    ('x'.toNat < 128 ∧ 'x'.isDigit = false ∧ 'x' ≠ '$' ∧ 'x' ≠ 'b' ∧ 'x' ≠ 'o' ∧
      'x' ≠ '!') ∧
    decodeLoop 5 5 ('x' :: ['o']) { x := 0, y := 0, count := some 2, cells := ∅ }
      = decodeLoop 5 5 ['o'] { x := 0, y := 0, count := none, cells := ∅ } :=
  ⟨⟨by decide, by decide, by decide, by decide, by decide, by decide⟩,
    unknown_char_resets_pending_count 5 5 'x' ['o']
      { x := 0, y := 0, count := some 2, cells := ∅ }
      (by decide) (by decide) (by decide) (by decide) (by decide) (by decide)⟩

/-! ## Claim C8: the scoring boundary -/

/-- C8: `computeRank` at `initialDefenderCount = 10`,
`pointsPlaced = 10`, `roundCount = 5`: point efficiency 1 (the ratio 1 is
not above 1), speed rating 1 (the theoretical minimum of 5 rounds was
met, so `exp 0 = 1`), click efficiency `exp(-0.25)` (deviation 0.5 from
the 2.5 optimum, halved), and weighted score
`round(500 + 300 + 200·exp(-1/4)) = 956`, which lands in the top tier;
the 900 boundary is inclusive (score 900 is still the top tier, 899 is
the next one down). -/
theorem victory_ranking_boundary :
    (victoryRankingData 10 10 5).rank_info.score = 956 ∧
    (victoryRankingData 10 10 5).rank_info.title = "Master Tactician" ∧
    (victoryRankingData 10 10 5).stats.efficiency_ratio = 100 ∧
    (victoryRankingData 10 10 5).stats.speed_rating = 100 ∧
    (victoryRankingData 10 10 5).stats.click_efficiency
      = round1 (Real.exp (-(1/4)) * 100) ∧
    (rankInfoFor 900).title = "Master Tactician" ∧
    (rankInfoFor 899).title = "Elite Commander" := by
  have hpow : Real.exp (1/4 : ℝ) ^ (4:ℕ) = Real.exp 1 := by
    rw [← Real.exp_nat_mul]
    norm_num
  have hub : Real.exp (1/4 : ℝ) < 1.2858 := by
    by_contra hle
    push_neg at hle
    have h4 : (1.2858:ℝ) ^ (4:ℕ) ≤ Real.exp (1/4:ℝ) ^ (4:ℕ) :=
      pow_le_pow_left₀ (by norm_num) hle 4
    rw [hpow] at h4
    have hd9 := Real.exp_one_lt_d9
    norm_num at h4 hd9
    linarith
  have hlb : (1.278:ℝ) < Real.exp (1/4 : ℝ) := by
    by_contra hle
    push_neg at hle
    have h4 : Real.exp (1/4:ℝ) ^ (4:ℕ) ≤ (1.278:ℝ) ^ (4:ℕ) :=
      pow_le_pow_left₀ (Real.exp_pos _).le hle 4
    rw [hpow] at h4
    have hd9 := Real.exp_one_gt_d9
    norm_num at h4 hd9
    linarith
  have hce_lo : (0.7775 : ℝ) < Real.exp (-(1/4):ℝ) := by
    rw [Real.exp_neg]
    have h1 : (1.2858:ℝ)⁻¹ < (Real.exp (1/4:ℝ))⁻¹ :=
      inv_strictAnti₀ (Real.exp_pos _) hub
    have h2 : (0.7775:ℝ) < (1.2858:ℝ)⁻¹ := by norm_num
    linarith
  have hce_hi : Real.exp (-(1/4):ℝ) < 0.7825 := by
    rw [Real.exp_neg]
    have h1 : (Real.exp (1/4:ℝ))⁻¹ < (1.278:ℝ)⁻¹ :=
      inv_strictAnti₀ (by norm_num) hlb
    have h2 : (1.278:ℝ)⁻¹ < 0.7825 := by norm_num
    linarith
  have hscore : (victoryRankingData 10 10 5).rank_info = rankInfoFor 956 := by
    unfold victoryRankingData
    dsimp only
    congr 1
    rw [if_neg (by norm_num), if_neg (by norm_num)]
    rw [show (⌈((10:ℕ):ℝ)/2⌉ : ℤ) = 5 by norm_num]
    rw [show (5 ⊔ 1 : ℕ) = 5 from rfl]
    rw [show (-(((5:ℕ):ℝ) - ((5:ℤ):ℝ))/15) = 0 by norm_num, Real.exp_zero]
    rw [show (-|((10:ℕ):ℝ)/((5:ℕ):ℝ) - 2.5|/2 : ℝ) = -(1/4) by
      rw [show ((10:ℕ):ℝ)/((5:ℕ):ℝ) - 2.5 = -(0.5) by norm_num, abs_neg,
        abs_of_nonneg (by norm_num)]
      norm_num]
    have hmax : (0:ℝ) ⊔ (0.5 * 1 * 1000 + 0.3 * 1 * 1000 + 0.2 * Real.exp (-(1/4)) * 1000)
        = 0.5 * 1 * 1000 + 0.3 * 1 * 1000 + 0.2 * Real.exp (-(1/4)) * 1000 := by
      apply max_eq_right
      nlinarith [hce_lo]
    have hmin : (1000:ℝ) ⊓ (0.5 * 1 * 1000 + 0.3 * 1 * 1000 + 0.2 * Real.exp (-(1/4)) * 1000)
        = 0.5 * 1 * 1000 + 0.3 * 1 * 1000 + 0.2 * Real.exp (-(1/4)) * 1000 := by
      apply min_eq_right
      nlinarith [hce_hi]
    rw [hmax, hmin, round_eq]
    rw [Int.floor_eq_iff]
    constructor
    · push_cast
      nlinarith [hce_lo]
    · push_cast
      nlinarith [hce_hi]
  refine ⟨by rw [hscore]; rfl, by rw [hscore]; rfl, ?_, ?_, ?_, rfl, rfl⟩
  · unfold victoryRankingData
    dsimp only
    rw [if_neg (by norm_num), if_neg (by norm_num)]
    unfold round1
    rw [show ((1:ℝ) * 100 * 10) = ((1000:ℤ):ℝ) by norm_num, round_intCast]
    norm_num
  · unfold victoryRankingData
    dsimp only
    rw [show (⌈((10:ℕ):ℝ)/2⌉ : ℤ) = 5 by norm_num]
    rw [show (-(((5:ℕ):ℝ) - ((5:ℤ):ℝ))/15) = 0 by norm_num, Real.exp_zero]
    unfold round1
    rw [show ((1:ℝ) * 100 * 10) = ((1000:ℤ):ℝ) by norm_num, round_intCast]
    norm_num
  · unfold victoryRankingData
    dsimp only
    rw [show (5 ⊔ 1 : ℕ) = 5 from rfl]
    rw [show (-|((10:ℕ):ℝ)/((5:ℕ):ℝ) - 2.5|/2 : ℝ) = -(1/4) by
      rw [show ((10:ℕ):ℝ)/((5:ℕ):ℝ) - 2.5 = -(0.5) by norm_num, abs_neg,
        abs_of_nonneg (by norm_num)]
      norm_num]
